import Mathlib

/-!
Verification of the endpoint-detail extraction engine of the s3-mcp-server
repository (Go).  The Go code in `internal/server` (function
`searchEndpointInContent` and its helpers `pathMatches`, `isHTTPMethod`,
`formatEndpointDetails`, and the aggregation loop in
`handleGetEndpointDetails`) is shallowly embedded below.  Strings are
modelled as `List Char`; the Go `strings` package functions used by the
source are reimplemented over `List Char` (`strings.TrimSpace`,
`strings.HasSuffix`, `strings.Contains`, `strings.TrimSuffix`,
`strings.Split`, `strings.ToUpper`/`ToLower` restricted to ASCII, which is
all the source ever feeds them for case conversion).
-/

/-- Space test used by the model of Go `strings.TrimSpace`. -/
def isSpaceC (c : Char) : Bool :=
  decide (c = ' ') || decide (c = '\t') || decide (c = '\n') || decide (c = '\r')

/-- Models Go `strings.TrimSpace` (leading and trailing whitespace removed). -/
def trimSpace (s : List Char) : List Char :=
  ((s.dropWhile isSpaceC).reverse.dropWhile isSpaceC).reverse

/-- Models Go `strings.HasPrefix` on rune lists. -/
def startsWithL : List Char → List Char → Bool
  | _, [] => true
  | [], _ :: _ => false
  | c :: cs, d :: ds => decide (c = d) && startsWithL cs ds

/-- Models Go `strings.HasSuffix` on rune lists. -/
def endsWithL (s suffx : List Char) : Bool :=
  startsWithL s.reverse suffx.reverse

/-- Models Go `strings.Contains` on rune lists (substring occurrence). -/
def containsL : List Char → List Char → Bool
  | [], n => startsWithL [] n
  | c :: t, n => startsWithL (c :: t) n || containsL t n

/-- Models Go `strings.TrimSuffix` on rune lists. -/
def trimSuffixL (s suffx : List Char) : List Char :=
  if endsWithL s suffx then s.take (s.length - suffx.length) else s

/-- ASCII lower-casing of one character (Go `strings.ToLower` on the
ASCII-only inputs the source uses). -/
def toLowerC (c : Char) : Char :=
  if decide ('A' ≤ c) && decide (c ≤ 'Z') then Char.ofNat (c.toNat + 32) else c

/-- ASCII upper-casing of one character (Go `strings.ToUpper` on the
ASCII-only inputs the source uses). -/
def toUpperC (c : Char) : Char :=
  if decide ('a' ≤ c) && decide (c ≤ 'z') then Char.ofNat (c.toNat - 32) else c

/-- Models Go `strings.ToLower` (ASCII). -/
def toLowerL (s : List Char) : List Char := s.map toLowerC

/-- Models Go `strings.ToUpper` (ASCII). -/
def toUpperL (s : List Char) : List Char := s.map toUpperC

/-- Indentation of a line: `len(line) - len(strings.TrimLeft(line, " "))`,
the count of leading space characters. -/
def indentOf (l : List Char) : Nat :=
  (l.takeWhile (fun c => decide (c = ' '))).length

/-- Models Go `strings.Split(content, "\n")`. -/
def splitNl : List Char → List (List Char)
  | [] => [[]]
  | c :: cs =>
    if decide (c = '\n') then [] :: splitNl cs
    else
      match splitNl cs with
      | [] => [[c]]
      | l :: ls => (c :: l) :: ls

/-- The opening curly brace character, the parameter-segment marker of the
source (`strings.Split(endpointPath, "...")` on that one-character string). -/
def curlyOpen : Char := '\x7b'

/-- Models `(s *Server) isHTTPMethod` from the source: case-insensitive
membership in the seven standard HTTP verbs. -/
def isHTTPMethod (s : List Char) : Bool :=
  let m := toLowerL s
  decide (m = "get".data) || decide (m = "post".data) || decide (m = "put".data) ||
  decide (m = "delete".data) || decide (m = "patch".data) || decide (m = "head".data) ||
  decide (m = "options".data)

/-- Models `(s *Server) pathMatches(endpointPath, searchPath)` from the
source: exact match, else substring match, else the parameter-base rule
(`basePath` is everything before the first curly brace with one trailing
slash trimmed). -/
def pathMatches (endpointPath searchPath : List Char) : Bool :=
  if decide (endpointPath = searchPath) then true
  else if containsL endpointPath searchPath then true
  else if containsL endpointPath [curlyOpen] then
    let basePath0 := endpointPath.takeWhile (fun c => !decide (c = curlyOpen))
    let basePath := trimSuffixL basePath0 "/".data
    if decide (basePath = searchPath) || containsL basePath searchPath then true
    else false
  else false

/-- One finalized endpoint match: the `(currentPath, currentMethod,
endpointDetails)` triple handed to `formatEndpointDetails` by
`searchEndpointInContent`. -/
structure EndpointMatch where
  path : List Char
  method : List Char
  details : List (List Char)
  deriving DecidableEq, Repr

/-- The mutable locals of `searchEndpointInContent`:
`currentPath`, `currentMethod`, `inPaths`, `inEndpoint`, `pathMatches`,
`methodMatches`, `indentLevel`, `endpointDetails`, plus the list of
finalized matches written to the result builder so far. -/
structure ScanState where
  currentPath : List Char
  currentMethod : List Char
  inPaths : Bool
  inEndpoint : Bool
  pathOk : Bool
  methodOk : Bool
  indentLevel : Nat
  endpointDetails : List (List Char)
  finalized : List EndpointMatch
  deriving DecidableEq, Repr

/-- Zero values of the locals at the start of `searchEndpointInContent`. -/
def initState : ScanState :=
  { currentPath := [], currentMethod := [], inPaths := false, inEndpoint := false,
    pathOk := false, methodOk := false, indentLevel := 0,
    endpointDetails := [], finalized := [] }

/-- The marker filter of the detail collector: the disjunction of
`strings.Contains(trimmed, ...)` tests in `searchEndpointInContent`. -/
def markerMatch (trimmed : List Char) : Bool :=
  containsL trimmed "summary:".data ||
  containsL trimmed "description:".data ||
  containsL trimmed "responses:".data ||
  containsL trimmed "requestBody:".data ||
  containsL trimmed "parameters:".data ||
  containsL trimmed "blocked_reason".data ||
  containsL trimmed "schema:".data ||
  containsL trimmed "$ref:".data ||
  containsL trimmed "type:".data ||
  containsL trimmed "properties:".data ||
  containsL trimmed "example:".data

/-- The inner lookahead loop after a `responses:` line: appends lines
verbatim, breaking at the first line whose indentation is at most the
indentation of the `responses` line and which ends with a colon and has no
interior space.  The caller passes the at-most-19-line window. -/
def lookaheadCapture (ind : Nat) : List (List Char) → List (List Char)
  | [] => []
  | l :: ls =>
    let t := trimSpace l
    if decide (indentOf l ≤ ind) && (endsWithL t ":".data && !containsL t " ".data) then []
    else l :: lookaheadCapture ind ls

/-- Path-key test of the matcher: the trimmed line ends with a colon at
indentation at most 2 and has no interior space. -/
def isPathKeyLine (line : List Char) : Bool :=
  endsWithL (trimSpace line) ":".data && decide (indentOf line ≤ 2) &&
    !containsL (trimSpace line) " ".data

/-- Method-key test of the matcher: current path matched, trimmed line ends
with a colon at indentation strictly greater than that of the path, and the key
is an HTTP verb. -/
def isMethodKeyLine (st : ScanState) (line : List Char) : Bool :=
  st.pathOk && endsWithL (trimSpace line) ":".data &&
    decide (st.indentLevel < indentOf line) &&
    isHTTPMethod (trimSuffixL (trimSpace line) ":".data)

/-- Collector guard: an endpoint is open and both predicates hold. -/
def collecting (st : ScanState) : Bool :=
  st.inEndpoint && st.pathOk && st.methodOk

/-- The collector body for one line: the marker-filtered append followed by
the guarded responses lookahead. -/
def collectDetails (all : List (List Char)) (i : Nat) (line : List Char)
    (d : List (List Char)) : List (List Char) :=
  let trimmed := trimSpace line
  let d1 := if markerMatch trimmed then d ++ [line] else d
  if containsL trimmed "responses:".data && decide (i + 10 < all.length) then
    d1 ++ lookaheadCapture (indentOf line) ((all.drop (i + 1)).take 19)
  else d1

/-- One iteration of the `for i, line := range lines` loop of
`searchEndpointInContent`.  `sp` is the search path, `m` the (already
upper-cased) method filter, `all` the full line list (needed by the
lookahead), `i` the loop index. -/
def step (sp m : List Char) (all : List (List Char)) (i : Nat) (line : List Char)
    (st : ScanState) : ScanState :=
  let trimmed := trimSpace line
  if decide (trimmed = "paths:".data) then { st with inPaths := true }
  else if !st.inPaths then st
  else if isPathKeyLine line then
    let fin :=
      if st.inEndpoint && st.pathOk && (decide (m = []) || st.methodOk) then
        st.finalized ++ [⟨st.currentPath, st.currentMethod, st.endpointDetails⟩]
      else st.finalized
    { currentPath := trimSuffixL trimmed ":".data
      currentMethod := st.currentMethod
      inPaths := true
      inEndpoint := false
      pathOk := pathMatches (trimSuffixL trimmed ":".data) sp
      methodOk := false
      indentLevel := indentOf line
      endpointDetails := []
      finalized := fin }
  else if isMethodKeyLine st line then
    { st with
      currentMethod := toUpperL (trimSuffixL trimmed ":".data)
      methodOk := decide (m = []) || decide (m = toUpperL (trimSuffixL trimmed ":".data))
      inEndpoint := true
      endpointDetails := [] }
  else if collecting st then
    { st with endpointDetails := collectDetails all i line st.endpointDetails }
  else st

/-- The whole line loop of `searchEndpointInContent`, folding `step` over
the remaining lines (`all` stays the full list for the lookahead). -/
def scanGo (sp m : List Char) (all : List (List Char)) : Nat → List (List Char) → ScanState → ScanState
  | _, [], st => st
  | i, l :: ls, st => scanGo sp m all (i + 1) ls (step sp m all i l st)

/-- The finalized matches of one `searchEndpointInContent` call: the line
loop followed by the final "handle the last endpoint if it matched" flush. -/
def scanMatches (content sp m : List Char) : List EndpointMatch :=
  let lines := splitNl content
  let fin := scanGo sp m lines 0 lines initState
  if fin.inEndpoint && fin.pathOk && (decide (m = []) || fin.methodOk) then
    fin.finalized ++ [⟨fin.currentPath, fin.currentMethod, fin.endpointDetails⟩]
  else fin.finalized

/-- Document with one path and two methods, the first of which matches a
GET query: exercises the method-supersession behaviour. -/
def exTwoMethods : List Char :=
  "paths:\n  /a:\n    get:\n      summary: one\n    post:\n      summary: two".data

/-- The five section accumulators and the sticky flag of
`formatEndpointDetails`. -/
structure Sections where
  summary : List (List Char)
  descr : List (List Char)
  params : List (List Char)
  requestBody : List (List Char)
  responses : List (List Char)
  inResponsesSection : Bool
  deriving DecidableEq, Repr

/-- Empty section accumulators. -/
def emptySections : Sections := ⟨[], [], [], [], [], false⟩

/-- One iteration of the grouping loop of `formatEndpointDetails`: the
if/else-if classification chain over one collected detail line. -/
def classifyStep (s : Sections) (detail : List Char) : Sections :=
  let trimmed := trimSpace detail
  if containsL trimmed "summary:".data then
    { s with summary := s.summary ++ [detail] }
  else if containsL trimmed "description:".data && !s.inResponsesSection then
    { s with descr := s.descr ++ [detail] }
  else if containsL trimmed "parameters:".data then
    { s with params := s.params ++ [detail] }
  else if containsL trimmed "requestBody:".data then
    { s with requestBody := s.requestBody ++ [detail] }
  else if containsL trimmed "responses:".data then
    { s with inResponsesSection := true, responses := s.responses ++ [detail] }
  else if s.inResponsesSection then
    { s with responses := s.responses ++ [detail] }
  else s

/-- The grouping loop of `formatEndpointDetails` over all detail lines. -/
def classifyDetails (details : List (List Char)) : Sections :=
  details.foldl classifyStep emptySections

/-- Rendering of one non-responses section: header line, then each line
indented by three spaces. -/
def renderSection (hdr : List Char) (lines : List (List Char)) : List Char :=
  if decide (lines = []) then []
  else hdr ++ List.flatten (lines.map (fun l => "   ".data ++ l ++ "\n".data))

/-- Rendering of the responses section: lines whose lower-cased text
contains the sensitive marker get the highlighted variant. -/
def renderResponses (lines : List (List Char)) : List Char :=
  if decide (lines = []) then []
  else "   📥 Responses:\n".data ++
    List.flatten (lines.map (fun r =>
      if containsL (toLowerL r) "blocked_reason".data then "   🔴 ".data ++ r ++ "\n".data
      else "   ".data ++ r ++ "\n".data))

/-- Models `(s *Server) formatEndpointDetails(path, method, details)`. -/
def formatEndpointDetails (path method : List Char) (details : List (List Char)) : List Char :=
  let header := "🔍 **".data ++ method ++ " ".data ++ path ++ "**\n".data
  if decide (details = []) then header ++ "   No detailed information found.\n".data
  else
    let s := classifyDetails details
    header ++
      renderSection "   📝 Summary:\n".data s.summary ++
      renderSection "   📖 Description:\n".data s.descr ++
      renderSection "   🔧 Parameters:\n".data s.params ++
      renderSection "   📤 Request Body:\n".data s.requestBody ++
      renderResponses s.responses

/-- Models `(s *Server) searchEndpointInContent(content, searchPath,
method, fileName)`: the rendered detail text for one document (the
`fileName` argument is unused by the Go function body). -/
def searchEndpointInContent (content searchPath method : List Char) : List Char :=
  List.flatten ((scanMatches content searchPath method).map
    (fun r => formatEndpointDetails r.path r.method r.details))

/-- One retrieved document: its display name and full text (the fields of
the Go `YAMLFile` used by the endpoint-details handler). -/
structure YamlFile where
  name : List Char
  content : List Char
  deriving DecidableEq, Repr

/-- One entry of the `foundEndpoints` slice built by the handler. -/
def foundEntry (name info : List Char) : List Char :=
  "📄 **Found in ".data ++ name ++ "**:\n".data ++ info ++ "\n".data

/-- The `foundEndpoints` slice of `handleGetEndpointDetails`: one entry per
document whose `searchEndpointInContent` result is non-empty. -/
def foundEndpoints (files : List YamlFile) (path method : List Char) : List (List Char) :=
  files.filterMap (fun f =>
    let info := searchEndpointInContent f.content path method
    if decide (info = []) then none else some (foundEntry f.name info))

/-- Decimal rendering of a count (Go `%d`). -/
def natChars (n : Nat) : List Char := (Nat.repr n).data

/-- The aggregate report text built by `handleGetEndpointDetails` after the
per-file loop (documents already retrieved; retrieval failures are skipped
by the caller before this point). -/
def aggregateEndpointDetails (files : List YamlFile) (path method : List Char) : List Char :=
  let fe := foundEndpoints files path method
  if decide (fe.length = 0) then
    "❌ No endpoints found matching path \x27".data ++ path ++ "\x27".data ++
      (if decide (method = []) then [] else " with method ".data ++ method) ++
      "\n\nTip: Try searching with a partial path like \x27/cards\x27 or \x27/users\x27".data
  else
    "🎯 Found ".data ++ natChars fe.length ++ " endpoint(s) matching path \x27".data ++
      path ++ "\x27".data ++
      (if decide (method = []) then [] else " with method ".data ++ method) ++
      ":\n\n".data ++
      List.flatten (fe.map (fun e => e ++ "\n".data))

/-- Upper-cased HTTP verb of a line shaped like a method key (trimmed text
ends with a colon and the key is an HTTP verb), if any. -/
def methodShapedVerb (l : List Char) : Option (List Char) :=
  let t := trimSpace l
  if endsWithL t ":".data && isHTTPMethod (trimSuffixL t ":".data) then
    some (toUpperL (trimSuffixL t ":".data))
  else none

/-- All HTTP verbs present in a document, as the upper-cased verbs of its
method-key-shaped lines. -/
def verbsPresent (content : List Char) : List (List Char) :=
  (splitNl content).filterMap methodShapedVerb

/-- Projection of an unfiltered scan state (method filter empty) to the
corresponding state of the scan with method filter `m`: the method
predicate gains the conjunct `m = currentMethod`, the detail buffer is
empty whenever that predicate is false, and the finalized list keeps only
the matches whose verb is `m`. -/
def projState (m : List Char) (b : ScanState) : ScanState :=
  { b with
    methodOk := b.methodOk && decide (m = b.currentMethod),
    endpointDetails :=
      if b.methodOk && decide (m = b.currentMethod) then b.endpointDetails else [],
    finalized := b.finalized.filter (fun r => decide (m = r.method)) }

/-- On every state reachable with the empty method filter, `methodMatches`
equals `inEndpoint` (the filter-free method predicate is always true). -/
def GoodState (b : ScanState) : Prop := b.methodOk = b.inEndpoint

/-- Parameterised candidate path from the worked example of the spec. -/
def exParamPath : List Char := "/cards/\x7bcard_id\x7d/pan".data

/-- Document whose `responses:` line is followed by fewer than 10 further
lines, so the lookahead guard `i+10 < len(lines)` fails. -/
def exShortResponses : List Char :=
  "paths:\n  /a:\n    get:\n      responses:\n        x200: ok".data

/-- Document with two methods under one path, each with a `responses:`
section; the response lines of the second method carry the word `second`. -/
def exSiblingResponses : List Char :=
  "paths:\n  /a:\n    get:\n      responses:\n        r200: first\n    post:\n      responses:\n        r200: second".data

/-- Document whose `responses:` lookahead window contains a blank line
(and at least 10 lines follow the `responses:` line). -/
def exBlankInLookahead : List Char :=
  "paths:\n  /a:\n    get:\n      responses:\n        r200: ok\n\n    stop:\n  w1\n  w2\n  w3\n  w4\n  w5\n  w6\n  w7".data

/-- Document with two distinct paths, each carrying one matching method. -/
def exTwoPaths : List Char :=
  "paths:\n  /a:\n    get:\n      summary: a\n  /b:\n    get:\n      summary: b".data

/-- Single retrieved file holding the two-path document. -/
def exFilesC7 : List YamlFile := [⟨"doc.yaml".data, exTwoPaths⟩]

/-- Scan state with an open, fully matching GET block under path `/a`. -/
def exStC1 : ScanState :=
  ⟨"/a".data, "GET".data, true, true, true, true, 2,
    ["      summary: one".data], []⟩

/-- Section accumulators that are already in sticky responses mode. -/
def exSecC4 : Sections :=
  ⟨[], [], [], [], ["      responses:".data], true⟩

/-- Scan state with an open, fully matching GET block, for the lookahead
witness. -/
def exStC5 : ScanState :=
  ⟨"/a".data, "GET".data, true, true, true, true, 2, [], []⟩

/-- A 15-line surrounding document for the lookahead witness: the
`responses:` line sits at index 3 and the window contains two capturable
lines followed by a stop line. -/
def exAllC5 : List (List Char) :=
  ["paths:".data, "  /a:".data, "    get:".data, "      responses:".data,
   "        r200: ok".data, "        r404: no".data, "    x:".data,
   "  w1".data, "  w2".data, "  w3".data, "  w4".data, "  w5".data,
   "  w6".data, "  w7".data, "  w8".data]

/-- Scan state for the blank-line witness. -/
def exStC6 : ScanState :=
  ⟨"/a".data, "GET".data, true, true, true, true, 2, [], []⟩

theorem good_init : GoodState initState := rfl

theorem good_step (sp : List Char) (all : List (List Char)) (i : Nat) (line : List Char)
    (b : ScanState) (hg : GoodState b) : GoodState (step sp [] all i line b) := by
  obtain ⟨cp, cm, ip, ie, pk, mk, il, ed, fz⟩ := b
  replace hg : mk = ie := hg
  subst hg
  unfold GoodState
  simp only [step]
  repeat' split
  all_goals rfl

theorem step_paths (sp m : List Char) (all : List (List Char)) (i : Nat) (line : List Char)
    (st : ScanState) (h : trimSpace line = "paths:".data) :
    step sp m all i line st = { st with inPaths := true } := by
  simp [step, h]

theorem step_skip (sp m : List Char) (all : List (List Char)) (i : Nat) (line : List Char)
    (st : ScanState) (h1 : trimSpace line ≠ "paths:".data) (h2 : st.inPaths = false) :
    step sp m all i line st = st := by
  simp [step, h1, h2]

theorem step_pathKey (sp m : List Char) (all : List (List Char)) (i : Nat) (line : List Char)
    (st : ScanState) (h1 : trimSpace line ≠ "paths:".data) (h2 : st.inPaths = true)
    (h3 : isPathKeyLine line = true) :
    step sp m all i line st =
      { currentPath := trimSuffixL (trimSpace line) ":".data
        currentMethod := st.currentMethod
        inPaths := true
        inEndpoint := false
        pathOk := pathMatches (trimSuffixL (trimSpace line) ":".data) sp
        methodOk := false
        indentLevel := indentOf line
        endpointDetails := []
        finalized :=
          if st.inEndpoint && st.pathOk && (decide (m = []) || st.methodOk) then
            st.finalized ++ [⟨st.currentPath, st.currentMethod, st.endpointDetails⟩]
          else st.finalized } := by
  simp [step, h1, h2, h3]

theorem step_methodKey (sp m : List Char) (all : List (List Char)) (i : Nat) (line : List Char)
    (st : ScanState) (h1 : trimSpace line ≠ "paths:".data) (h2 : st.inPaths = true)
    (h3 : isPathKeyLine line = false) (h4 : isMethodKeyLine st line = true) :
    step sp m all i line st =
      { st with
        currentMethod := toUpperL (trimSuffixL (trimSpace line) ":".data)
        methodOk := decide (m = []) || decide (m = toUpperL (trimSuffixL (trimSpace line) ":".data))
        inEndpoint := true
        endpointDetails := [] } := by
  simp [step, h1, h2, h3, h4]

theorem step_collect (sp m : List Char) (all : List (List Char)) (i : Nat) (line : List Char)
    (st : ScanState) (h1 : trimSpace line ≠ "paths:".data) (h2 : st.inPaths = true)
    (h3 : isPathKeyLine line = false) (h4 : isMethodKeyLine st line = false)
    (h5 : collecting st = true) :
    step sp m all i line st =
      { st with endpointDetails := collectDetails all i line st.endpointDetails } := by
  simp [step, h1, h2, h3, h4, h5]

theorem step_idle (sp m : List Char) (all : List (List Char)) (i : Nat) (line : List Char)
    (st : ScanState) (h1 : trimSpace line ≠ "paths:".data) (h2 : st.inPaths = true)
    (h3 : isPathKeyLine line = false) (h4 : isMethodKeyLine st line = false)
    (h5 : collecting st = false) :
    step sp m all i line st = st := by
  simp [step, h1, h2, h3, h4, h5]

set_option maxHeartbeats 1000000 in
theorem proj_step (sp m : List Char) (all : List (List Char)) (i : Nat) (line : List Char)
    (b : ScanState) (hm : m ≠ []) (hg : GoodState b) :
    step sp m all i line (projState m b) = projState m (step sp [] all i line b) := by
  have hmd : decide (m = []) = false := decide_eq_false hm
  have hpp : (projState m b).inPaths = b.inPaths := rfl
  have hpk : (projState m b).pathOk = b.pathOk := rfl
  have hil : (projState m b).indentLevel = b.indentLevel := rfl
  by_cases h1 : trimSpace line = "paths:".data
  · rw [step_paths sp m all i line _ h1, step_paths sp [] all i line _ h1]
    obtain ⟨cp, cm, ip, ie, pk, mk, il, ed, fz⟩ := b
    simp [projState]
  · by_cases h2 : b.inPaths = false
    · rw [step_skip sp m all i line _ h1 (by rw [hpp, h2]),
        step_skip sp [] all i line _ h1 h2]
    · rw [Bool.not_eq_false] at h2
      by_cases h3 : isPathKeyLine line = true
      · rw [step_pathKey sp m all i line _ h1 (by rw [hpp, h2]) h3,
          step_pathKey sp [] all i line _ h1 h2 h3]
        obtain ⟨cp, cm, ip, ie, pk, mk, il, ed, fz⟩ := b
        replace hg : mk = ie := hg
        subst hg
        by_cases hcm : decide (m = cm) = true <;>
          cases mk <;> cases pk <;>
            simp_all [projState, List.filter_append]
      · rw [Bool.not_eq_true] at h3
        have h4e : isMethodKeyLine (projState m b) line = isMethodKeyLine b line := by
          simp [isMethodKeyLine, hpk, hil]
        by_cases h4 : isMethodKeyLine b line = true
        · rw [step_methodKey sp m all i line _ h1 (by rw [hpp, h2]) h3 (by rw [h4e, h4]),
            step_methodKey sp [] all i line _ h1 h2 h3 h4]
          obtain ⟨cp, cm, ip, ie, pk, mk, il, ed, fz⟩ := b
          simp_all [projState]
        · rw [Bool.not_eq_true] at h4
          obtain ⟨cp, cm, ip, ie, pk, mk, il, ed, fz⟩ := b
          replace hg : mk = ie := hg
          subst hg
          replace h2 : ip = true := h2
          subst h2
          by_cases hcm : decide (m = cm) = true
          · have hc : collecting (projState m ⟨cp, cm, true, mk, pk, mk, il, ed, fz⟩) =
                collecting ⟨cp, cm, true, mk, pk, mk, il, ed, fz⟩ := by
              simp [collecting, projState, hcm]
            by_cases h5 : collecting (⟨cp, cm, true, mk, pk, mk, il, ed, fz⟩ : ScanState) = true
            · rw [step_collect sp m all i line _ h1 rfl h3 (by rw [h4e]; exact h4) (by rw [hc, h5]),
                step_collect sp [] all i line _ h1 rfl h3 h4 h5]
              cases mk <;> simp_all [projState, collecting]
            · rw [Bool.not_eq_true] at h5
              rw [step_idle sp m all i line _ h1 rfl h3 (by rw [h4e]; exact h4) (by rw [hc, h5]),
                step_idle sp [] all i line _ h1 rfl h3 h4 h5]
          · replace hcm : decide (m = cm) = false := by
              simpa using hcm
            have hc : collecting (projState m ⟨cp, cm, true, mk, pk, mk, il, ed, fz⟩) = false := by
              simp [collecting, projState, hcm]
            rw [step_idle sp m all i line _ h1 rfl h3 (by rw [h4e]; exact h4) hc]
            by_cases h5 : collecting (⟨cp, cm, true, mk, pk, mk, il, ed, fz⟩ : ScanState) = true
            · rw [step_collect sp [] all i line _ h1 rfl h3 h4 h5]
              cases mk <;> simp_all [projState, collecting]
            · rw [Bool.not_eq_true] at h5
              rw [step_idle sp [] all i line _ h1 rfl h3 h4 h5]

theorem proj_init (m : List Char) : projState m initState = initState := by
  simp [projState, initState]

theorem scanGo_good (sp : List Char) (all : List (List Char)) :
    ∀ (rest : List (List Char)) (i : Nat) (st : ScanState), GoodState st →
      GoodState (scanGo sp [] all i rest st)
  | [], _, _, hg => hg
  | l :: ls, i, st, hg =>
    scanGo_good sp all ls (i + 1) (step sp [] all i l st) (good_step sp all i l st hg)

theorem scanGo_proj (sp m : List Char) (all : List (List Char)) (hm : m ≠ []) :
    ∀ (rest : List (List Char)) (i : Nat) (st : ScanState), GoodState st →
      scanGo sp m all i rest (projState m st) = projState m (scanGo sp [] all i rest st)
  | [], _, _, _ => rfl
  | l :: ls, i, st, hg => by
    show scanGo sp m all (i + 1) ls (step sp m all i l (projState m st)) = _
    rw [proj_step sp m all i l st hm hg]
    exact scanGo_proj sp m all hm ls (i + 1) (step sp [] all i l st) (good_step sp all i l st hg)

/-- Scanning with a non-empty (upper-cased) method filter yields exactly
the matches of the unfiltered scan whose verb equals the filter. -/
theorem scanMatches_filter (content sp m : List Char) (hm : m ≠ []) :
    scanMatches content sp m =
      (scanMatches content sp []).filter (fun r => decide (m = r.method)) := by
  have hmd : decide (m = []) = false := decide_eq_false hm
  have hg : GoodState (scanGo sp [] (splitNl content) 0 (splitNl content) initState) :=
    scanGo_good sp (splitNl content) (splitNl content) 0 initState good_init
  have h := scanGo_proj sp m (splitNl content) hm (splitNl content) 0 initState good_init
  rw [proj_init] at h
  simp only [scanMatches]
  rw [h]
  generalize scanGo sp [] (splitNl content) 0 (splitNl content) initState = b at hg ⊢
  obtain ⟨cp, cm, ip, ie, pk, mk, il, ed, fz⟩ := b
  replace hg : mk = ie := hg
  subst hg
  cases mk <;> cases pk <;> by_cases hcm : decide (m = cm) = true <;>
    simp_all [projState, List.filter_append]

theorem step_verbs (sp m : List Char) (all : List (List Char)) (i : Nat) (line : List Char)
    (st : ScanState) (V : List (List Char))
    (hline : ∀ v, methodShapedVerb line = some v → v ∈ V)
    (h1 : ∀ r ∈ st.finalized, r.method ∈ V)
    (h2 : st.inEndpoint = true → st.currentMethod ∈ V) :
    (∀ r ∈ (step sp m all i line st).finalized, r.method ∈ V) ∧
      ((step sp m all i line st).inEndpoint = true →
        (step sp m all i line st).currentMethod ∈ V) := by
  by_cases hp : trimSpace line = "paths:".data
  · rw [step_paths sp m all i line st hp]; exact ⟨h1, h2⟩
  · by_cases hip : st.inPaths = false
    · rw [step_skip sp m all i line st hp hip]; exact ⟨h1, h2⟩
    · rw [Bool.not_eq_false] at hip
      by_cases hpk : isPathKeyLine line = true
      · rw [step_pathKey sp m all i line st hp hip hpk]
        refine ⟨?_, by intro h; cases h⟩
        intro r hr
        split at hr
        · rcases List.mem_append.mp hr with h | h
          · exact h1 r h
          · rename_i hfl
            simp only [Bool.and_eq_true] at hfl
            have hcm := h2 hfl.1.1
            simp only [List.mem_singleton] at h
            subst h
            exact hcm
        · exact h1 r hr
      · rw [Bool.not_eq_true] at hpk
        by_cases hmk : isMethodKeyLine st line = true
        · rw [step_methodKey sp m all i line st hp hip hpk hmk]
          refine ⟨h1, fun _ => ?_⟩
          simp only [isMethodKeyLine, Bool.and_eq_true] at hmk
          exact hline _ (by simp [methodShapedVerb, hmk.1.1.2, hmk.2])
        · rw [Bool.not_eq_true] at hmk
          by_cases hc : collecting st = true
          · rw [step_collect sp m all i line st hp hip hpk hmk hc]; exact ⟨h1, h2⟩
          · rw [Bool.not_eq_true] at hc
            rw [step_idle sp m all i line st hp hip hpk hmk hc]; exact ⟨h1, h2⟩

theorem scanGo_verbs (sp m : List Char) (all : List (List Char)) (V : List (List Char)) :
    ∀ (rest : List (List Char)) (i : Nat) (st : ScanState),
      (∀ l ∈ rest, ∀ v, methodShapedVerb l = some v → v ∈ V) →
      (∀ r ∈ st.finalized, r.method ∈ V) →
      (st.inEndpoint = true → st.currentMethod ∈ V) →
      (∀ r ∈ (scanGo sp m all i rest st).finalized, r.method ∈ V) ∧
        ((scanGo sp m all i rest st).inEndpoint = true →
          (scanGo sp m all i rest st).currentMethod ∈ V)
  | [], _, _, _, h1, h2 => ⟨h1, h2⟩
  | l :: ls, i, st, hrest, h1, h2 => by
    have hs := step_verbs sp m all i l st V (hrest l (List.mem_cons_self l ls)) h1 h2
    exact scanGo_verbs sp m all V ls (i + 1) (step sp m all i l st)
      (fun x hx => hrest x (List.mem_cons_of_mem l hx)) hs.1 hs.2

theorem scanMatches_verbs (content sp m : List Char) (r : EndpointMatch)
    (hr : r ∈ scanMatches content sp m) : r.method ∈ verbsPresent content := by
  have hlines : ∀ l ∈ splitNl content, ∀ v, methodShapedVerb l = some v →
      v ∈ verbsPresent content := by
    intro l hl v hv
    exact List.mem_filterMap.mpr ⟨l, hl, hv⟩
  have h := scanGo_verbs sp m (splitNl content) (verbsPresent content)
    (splitNl content) 0 initState hlines (by intro r hr; cases hr) (by intro h; cases h)
  simp only [scanMatches] at hr
  split at hr
  · rcases List.mem_append.mp hr with hh | hh
    · exact h.1 r hh
    · rename_i hfl
      simp only [Bool.and_eq_true] at hfl
      have := h.2 hfl.1.1
      simp only [List.mem_singleton] at hh
      subst hh
      exact this
  · exact h.1 r hr

theorem isHTTPMethod_toUpper_ne_nil (w : List Char) (h : isHTTPMethod w = true) :
    toUpperL w ≠ [] := by
  cases w with
  | nil => exact absurd h (by decide)
  | cons c cs => simp [toUpperL]

theorem verbsPresent_ne_nil (content v : List Char) (hv : v ∈ verbsPresent content) :
    v ≠ [] := by
  rcases List.mem_filterMap.mp hv with ⟨l, _, hl⟩
  simp only [methodShapedVerb] at hl
  split at hl
  · rename_i hcond
    simp only [Bool.and_eq_true] at hcond
    have := isHTTPMethod_toUpper_ne_nil _ hcond.2
    simp only [Option.some.injEq] at hl
    rw [← hl]
    exact this
  · cases hl

theorem startsWithL_append (q r : List Char) : startsWithL (q ++ r) q = true := by
  induction q with
  | nil => cases r <;> simp [startsWithL]
  | cons c cs ih => simp [startsWithL, ih]

theorem containsL_nil_right (s : List Char) : containsL s [] = true := by
  cases s <;> simp [containsL, startsWithL]

theorem containsL_self_append (q r : List Char) : containsL (q ++ r) q = true := by
  cases q with
  | nil => exact containsL_nil_right r
  | cons c cs =>
    have h := startsWithL_append (c :: cs) r
    simp only [containsL, Bool.or_eq_true]
    exact Or.inl h

theorem containsL_of_parts (l q r : List Char) : containsL (l ++ (q ++ r)) q = true := by
  induction l with
  | nil => simpa using containsL_self_append q r
  | cons c cs ih => simp [containsL, ih]

theorem pathMatches_refl (p : List Char) : pathMatches p p = true := by
  simp [pathMatches]

theorem pathMatches_of_containsL (p q : List Char) (h : containsL p q = true) :
    pathMatches p q = true := by
  simp [pathMatches, h]

theorem lookaheadCapture_eq_takeWhile (ind : Nat) (ls : List (List Char)) :
    lookaheadCapture ind ls = ls.takeWhile (fun l =>
      !(decide (indentOf l ≤ ind) &&
        (endsWithL (trimSpace l) ":".data && !containsL (trimSpace l) " ".data))) := by
  induction ls with
  | nil => rfl
  | cons l ls ih =>
    simp only [lookaheadCapture, List.takeWhile]
    by_cases h : (decide (indentOf l ≤ ind) &&
        (endsWithL (trimSpace l) ":".data && !containsL (trimSpace l) " ".data)) = true
    · simp [h]
    · simp only [Bool.not_eq_true] at h
      simp [h, ih]

theorem markerMatch_of_responses (t : List Char) (h : containsL t "responses:".data = true) :
    markerMatch t = true := by
  simp [markerMatch, h]

theorem scanGo_no_paths (sp m : List Char) (all : List (List Char)) :
    ∀ (rest : List (List Char)) (i : Nat),
      (∀ l ∈ rest, trimSpace l ≠ "paths:".data) →
      scanGo sp m all i rest initState = initState
  | [], _, _ => rfl
  | l :: ls, i, h => by
    show scanGo sp m all (i + 1) ls (step sp m all i l initState) = initState
    rw [step_skip sp m all i l initState (h l (List.mem_cons_self l ls)) rfl]
    exact scanGo_no_paths sp m all ls (i + 1) (fun x hx => h x (List.mem_cons_of_mem l hx))

theorem foundEndpoints_length (p m : List Char) : ∀ files : List YamlFile,
    (foundEndpoints files p m).length =
      (files.filter (fun f => !decide (searchEndpointInContent f.content p m = []))).length
  | [] => rfl
  | f :: fs => by
    have ih := foundEndpoints_length p m fs
    by_cases h : searchEndpointInContent f.content p m = []
    · simpa [foundEndpoints, List.filterMap_cons, List.filter_cons, h] using ih
    · simpa [foundEndpoints, List.filterMap_cons, List.filter_cons, h] using ih

/-- Claim C3, counterexample: the claim asserts that query path `/pan`
does not match candidate `/cards/(card_id)/pan`, but the function
`pathMatches` returns true, because the candidate contains `/pan` as a
substring (second rule). -/
theorem c3_counterexample : pathMatches exParamPath "/pan".data = true := by decide

/-- Claim C3 (corrected): for candidate `/cards/(card_id)/pan`, query
`/cards` matches, and query `/pan` also matches — via the substring rule,
since the candidate contains `/pan`. -/
theorem c3_path_predicate_amended :
    pathMatches exParamPath "/cards".data = true ∧
    pathMatches exParamPath "/pan".data = true ∧
    containsL exParamPath "/pan".data = true := by decide

/-- Claim C9: the path predicate is reflexive, and whenever the query is a
substring of the candidate the predicate holds. -/
theorem c9_reflexive_monotone : ∀ p q : List Char,
    pathMatches p p = true ∧
    ((∃ l r, p = l ++ q ++ r) → pathMatches p q = true) := by
  intro p q
  refine ⟨pathMatches_refl p, ?_⟩
  rintro ⟨l, r, rfl⟩
  rw [List.append_assoc]
  exact pathMatches_of_containsL _ _ (containsL_of_parts l q r)

/-- Claim C9, witness at concrete inputs. -/
theorem c9_reflexive_monotone_witness :
    pathMatches "/ab".data "/ab".data = true ∧ pathMatches "/ab".data "a".data = true :=
  ⟨(c9_reflexive_monotone "/ab".data "a".data).1,
   (c9_reflexive_monotone "/ab".data "a".data).2 ⟨['/'], ['b'], by decide⟩⟩

/-- Claim C10: the path predicate accepts the empty query for every
candidate path, since every string contains the empty string. -/
theorem c10_empty_query : ∀ p : List Char, pathMatches p [] = true := fun p =>
  pathMatches_of_containsL p [] (containsL_nil_right p)

/-- Claim C8: a document with no line trimming to exactly the root marker
yields zero matches and an empty rendered result, for every query. -/
theorem c8_no_root_marker : ∀ content sp m : List Char,
    (∀ l ∈ splitNl content, trimSpace l ≠ "paths:".data) →
    scanMatches content sp m = [] ∧ searchEndpointInContent content sp m = [] := by
  intro content sp m h
  have hs : scanMatches content sp m = [] := by
    simp only [scanMatches]
    rw [scanGo_no_paths sp m (splitNl content) (splitNl content) 0 h]
    rfl
  exact ⟨hs, by simp [searchEndpointInContent, hs]⟩

/-- Claim C8, witness on a concrete marker-free document. -/
theorem c8_no_root_marker_witness :
    scanMatches "hello\nworld".data "/a".data [] = [] ∧
    searchEndpointInContent "hello\nworld".data "/a".data [] = [] :=
  c8_no_root_marker "hello\nworld".data "/a".data [] (by decide)

/-- Claim C1, counterexample: in a document whose path `/a` has a GET
block (satisfying both predicates for the query `path=/a, method=GET`)
followed by a POST block, the GET block is never finalized: the filtered
scan returns no matches at all, and the unfiltered scan returns only the
POST block. -/
theorem c1_counterexample :
    scanMatches exTwoMethods "/a".data "GET".data = [] ∧
    scanMatches exTwoMethods "/a".data [] =
      [⟨"/a".data, "POST".data, ["      summary: two".data]⟩] ∧
    pathMatches "/a".data "/a".data = true := by decide

/-- Claim C1 (corrected): a matching MethodBlock is finalized only at the
start of a new PathBlock (or at end-of-document, mirrored by the final
flush in `scanMatches`) and only if it is still the open block; opening a
new MethodBlock under the same path resets the detail buffer and discards
the previous method block without finalizing it. -/
theorem c1_finalization_amended : ∀ (sp m : List Char) (all : List (List Char)) (i : Nat)
    (line : List Char) (st : ScanState),
    st.inPaths = true → trimSpace line ≠ "paths:".data →
    ((isPathKeyLine line = false → isMethodKeyLine st line = true →
        (step sp m all i line st).finalized = st.finalized ∧
        (step sp m all i line st).endpointDetails = []) ∧
     (isPathKeyLine line = true →
        (st.inEndpoint && st.pathOk && (decide (m = []) || st.methodOk)) = true →
        (step sp m all i line st).finalized =
          st.finalized ++ [⟨st.currentPath, st.currentMethod, st.endpointDetails⟩])) := by
  intro sp m all i line st hip hnp
  constructor
  · intro hpk hmk
    rw [step_methodKey sp m all i line st hnp hip hpk hmk]
    exact ⟨rfl, rfl⟩
  · intro hpk hfl
    rw [step_pathKey sp m all i line st hnp hip hpk]
    simp [hfl]

/-- Claim C1, witness: a method-key line leaves the finalized list
untouched and clears the buffer; a path-key line finalizes the open block. -/
theorem c1_finalization_witness :
    (step "/a".data "GET".data [] 0 "    post:".data exStC1).finalized = exStC1.finalized ∧
    (step "/a".data "GET".data [] 0 "    post:".data exStC1).endpointDetails = [] ∧
    (step "/a".data [] [] 0 "  /b:".data exStC1).finalized =
      exStC1.finalized ++ [⟨exStC1.currentPath, exStC1.currentMethod, exStC1.endpointDetails⟩] := by
  have h1 := (c1_finalization_amended "/a".data "GET".data [] 0 "    post:".data exStC1
    (by decide) (by decide)).1 (by decide) (by decide)
  have h2 := (c1_finalization_amended "/a".data [] [] 0 "  /b:".data exStC1
    (by decide) (by decide)).2 (by decide) (by decide)
  exact ⟨h1.1, h1.2, h2⟩

/-- Claim C2: a finalized match of the unfiltered scan is exactly a
finalized match of the scan filtered by some verb present in the document
(the match set of the empty filter is the union of the per-verb match
sets). -/
theorem c2_empty_filter_union : ∀ (content sp : List Char) (r : EndpointMatch),
    r ∈ scanMatches content sp [] ↔
      ∃ v, v ∈ verbsPresent content ∧ r ∈ scanMatches content sp v := by
  intro content sp r
  constructor
  · intro hr
    have hv : r.method ∈ verbsPresent content := scanMatches_verbs content sp [] r hr
    refine ⟨r.method, hv, ?_⟩
    rw [scanMatches_filter content sp r.method (verbsPresent_ne_nil content r.method hv)]
    exact List.mem_filter.mpr ⟨hr, by simp⟩
  · rintro ⟨v, hv, hrv⟩
    rw [scanMatches_filter content sp v (verbsPresent_ne_nil content v hv)] at hrv
    exact (List.mem_filter.mp hrv).1

/-- Claim C2, witness on a concrete document. -/
theorem c2_empty_filter_union_witness :
    (⟨"/a".data, "POST".data, ["      summary: two".data]⟩ : EndpointMatch) ∈
      scanMatches exTwoMethods "/a".data [] ∧
    ∃ v, v ∈ verbsPresent exTwoMethods ∧
      (⟨"/a".data, "POST".data, ["      summary: two".data]⟩ : EndpointMatch) ∈
        scanMatches exTwoMethods "/a".data v := by
  have hm : (⟨"/a".data, "POST".data, ["      summary: two".data]⟩ : EndpointMatch) ∈
      scanMatches exTwoMethods "/a".data [] := by decide
  exact ⟨hm, (c2_empty_filter_union exTwoMethods "/a".data _).mp hm⟩

/-- Claim C4, counterexample: after a `responses:` line has been seen, a
later collected line containing the `summary:` marker is still filed under
the Summary section, not under Responses. -/
theorem c4_counterexample :
    classifyDetails ["      responses:".data, "      summary: later".data] =
      ⟨["      summary: later".data], [], [], [], ["      responses:".data], true⟩ := by decide

/-- Claim C4 (corrected): responses mode is sticky only against the
`description:` marker and marker-less lines; a line containing the
`summary:`, `parameters:` or `requestBody:` marker is still filed under
its own section even after `responses:` has been seen. -/
theorem c4_sticky_amended : ∀ (s : Sections) (detail : List Char),
    s.inResponsesSection = true →
    ((containsL (trimSpace detail) "summary:".data = true →
        (classifyStep s detail).summary = s.summary ++ [detail] ∧
        (classifyStep s detail).responses = s.responses) ∧
     (containsL (trimSpace detail) "summary:".data = false →
      containsL (trimSpace detail) "parameters:".data = true →
        (classifyStep s detail).params = s.params ++ [detail] ∧
        (classifyStep s detail).responses = s.responses) ∧
     (containsL (trimSpace detail) "summary:".data = false →
      containsL (trimSpace detail) "parameters:".data = false →
      containsL (trimSpace detail) "requestBody:".data = true →
        (classifyStep s detail).requestBody = s.requestBody ++ [detail] ∧
        (classifyStep s detail).responses = s.responses) ∧
     (containsL (trimSpace detail) "summary:".data = false →
      containsL (trimSpace detail) "parameters:".data = false →
      containsL (trimSpace detail) "requestBody:".data = false →
        (classifyStep s detail).responses = s.responses ++ [detail] ∧
        (classifyStep s detail).inResponsesSection = true)) := by
  intro s detail hin
  refine ⟨?_, ?_, ?_, ?_⟩
  · intro hs
    simp [classifyStep, hs]
  · intro hs hp
    simp [classifyStep, hs, hp, hin]
  · intro hs hp hrb
    simp [classifyStep, hs, hp, hrb, hin]
  · intro hs hp hrb
    by_cases hr : containsL (trimSpace detail) "responses:".data = true
    · simp [classifyStep, hs, hp, hrb, hr, hin]
    · simp only [Bool.not_eq_true] at hr
      simp [classifyStep, hs, hp, hrb, hr, hin]

/-- Claim C4, witness: summary-, parameters- and requestBody-marked lines
each escape sticky mode into their own section while an unmarked line is
filed under Responses. -/
theorem c4_sticky_witness :
    (classifyStep exSecC4 "      summary: later".data).summary =
      exSecC4.summary ++ ["      summary: later".data] ∧
    (classifyStep exSecC4 "      summary: later".data).responses = exSecC4.responses ∧
    (classifyStep exSecC4 "      parameters:".data).params =
      exSecC4.params ++ ["      parameters:".data] ∧
    (classifyStep exSecC4 "      parameters:".data).responses = exSecC4.responses ∧
    (classifyStep exSecC4 "      requestBody:".data).requestBody =
      exSecC4.requestBody ++ ["      requestBody:".data] ∧
    (classifyStep exSecC4 "      requestBody:".data).responses = exSecC4.responses ∧
    (classifyStep exSecC4 "        r200: ok".data).responses =
      exSecC4.responses ++ ["        r200: ok".data] ∧
    (classifyStep exSecC4 "        r200: ok".data).inResponsesSection = true := by
  have h1 := (c4_sticky_amended exSecC4 "      summary: later".data (by decide)).1 (by decide)
  have h2 := (c4_sticky_amended exSecC4 "      parameters:".data (by decide)).2.1
    (by decide) (by decide)
  have h3 := (c4_sticky_amended exSecC4 "      requestBody:".data (by decide)).2.2.1
    (by decide) (by decide) (by decide)
  have h4 := (c4_sticky_amended exSecC4 "        r200: ok".data (by decide)).2.2.2
    (by decide) (by decide) (by decide)
  exact ⟨h1.1, h1.2, h2.1, h2.2, h3.1, h3.2, h4.1, h4.2⟩

/-- Claim C5, counterexample: the `responses:` line of this document is
followed by a capturable line (deeper indentation, not a stop line), yet
nothing is captured, because fewer than 10 lines follow the `responses:`
line and the lookahead is guarded by `i+10 < len(lines)`. -/
theorem c5_counterexample :
    scanMatches exShortResponses "/a".data [] =
      [⟨"/a".data, "GET".data, ["      responses:".data]⟩] ∧
    decide (indentOf "        x200: ok".data ≤ indentOf "      responses:".data) = false := by
  decide

/-- Claim C5 (corrected): for a `responses:`-marked line collected inside
an open matching MethodBlock, when at least 10 further lines follow
(`i+10 < len(lines)`), the following lines are appended verbatim up to 19
further lines, stopping exactly at the first line whose indentation is at
most the indentation of the responses line and whose trimmed text ends with a
colon and has no interior space; when fewer than 10 lines follow, no
lookahead occurs.  In the two-sibling-method scenario, a query restricted
to the first verb captures no response line of the second method in
its output. -/
theorem c5_lookahead_amended :
    (∀ (sp m : List Char) (all : List (List Char)) (i : Nat) (line : List Char)
        (st : ScanState),
      trimSpace line ≠ "paths:".data →
      st.inPaths = true →
      isPathKeyLine line = false →
      isMethodKeyLine st line = false →
      collecting st = true →
      containsL (trimSpace line) "responses:".data = true →
      (step sp m all i line st).endpointDetails =
        st.endpointDetails ++ [line] ++
          (if i + 10 < all.length then
            ((all.drop (i + 1)).take 19).takeWhile (fun l =>
              !(decide (indentOf l ≤ indentOf line) &&
                (endsWithL (trimSpace l) ":".data && !containsL (trimSpace l) " ".data)))
          else [])) ∧
    containsL (searchEndpointInContent exSiblingResponses "/a".data "GET".data)
      "second".data = false := by
  constructor
  · intro sp m all i line st hnp hip hpk hmk hc hresp
    rw [step_collect sp m all i line st hnp hip hpk hmk hc]
    show collectDetails all i line st.endpointDetails = _
    simp only [collectDetails]
    rw [markerMatch_of_responses _ hresp, hresp]
    by_cases hlen : i + 10 < all.length
    · simp [hlen, lookaheadCapture_eq_takeWhile, List.append_assoc]
    · simp [hlen]
  · decide

/-- Claim C5, witness: the lookahead captures the two deeper lines of the
window and stops at the shallower bare key. -/
theorem c5_lookahead_witness :
    (step "/a".data [] exAllC5 3 "      responses:".data exStC5).endpointDetails =
      ["      responses:".data, "        r200: ok".data, "        r404: no".data] := by
  have h := c5_lookahead_amended.1 "/a".data [] exAllC5 3 "      responses:".data exStC5
    (by decide) (by decide) (by decide) (by decide) (by decide) (by decide)
  rw [h]
  decide

/-- Claim C6, counterexample: the blank line inside the responses
lookahead window is appended verbatim to the detail buffer and rendered
in the output (as an indented empty line). -/
theorem c6_counterexample :
    scanMatches exBlankInLookahead "/a".data [] =
      [⟨"/a".data, "GET".data,
        ["      responses:".data, "        r200: ok".data, []]⟩] ∧
    containsL (searchEndpointInContent exBlankInLookahead "/a".data []) "\n   \n".data
      = true := by
  decide

/-- Claim C6 (corrected): a blank line leaves the scan state unchanged —
it never opens a path or method block and is never appended by the marker
filter — but inside a responses lookahead window blank lines are appended
verbatim (the capture loop does not skip them). -/
theorem c6_blank_amended : ∀ (sp m : List Char) (all : List (List Char)) (i : Nat)
    (line : List Char) (st : ScanState),
    trimSpace line = [] →
    step sp m all i line st = st ∧
    ∀ (ind : Nat) (ls : List (List Char)),
      lookaheadCapture ind (line :: ls) = line :: lookaheadCapture ind ls := by
  intro sp m all i line st h
  have hnp : trimSpace line ≠ "paths:".data := by rw [h]; decide
  have hend : endsWithL (trimSpace line) ":".data = false := by rw [h]; decide
  constructor
  · by_cases hip : st.inPaths = false
    · exact step_skip sp m all i line st hnp hip
    · rw [Bool.not_eq_false] at hip
      have hpk : isPathKeyLine line = false := by simp [isPathKeyLine, hend]
      have hmk : isMethodKeyLine st line = false := by simp [isMethodKeyLine, hend]
      by_cases hc : collecting st = true
      · rw [step_collect sp m all i line st hnp hip hpk hmk hc]
        have hmm : markerMatch (trimSpace line) = false := by rw [h]; decide
        have hcr : containsL (trimSpace line) "responses:".data = false := by rw [h]; decide
        simp [collectDetails, hmm, hcr]
      · rw [Bool.not_eq_true] at hc
        exact step_idle sp m all i line st hnp hip hpk hmk hc
  · intro ind ls
    simp [lookaheadCapture, hend]

/-- Claim C6, witness: a whitespace-only line is a no-op for the scan but
is kept by the lookahead capture. -/
theorem c6_blank_witness :
    step "/a".data [] [] 0 "   ".data exStC6 = exStC6 ∧
    lookaheadCapture 4 ("   ".data :: []) = "   ".data :: lookaheadCapture 4 [] := by
  have h := c6_blank_amended "/a".data [] [] 0 "   ".data exStC6 (by decide)
  exact ⟨h.1, h.2 4 []⟩

/-- Claim C7, counterexample: one retrieved document containing two
matched endpoints yields the header count 1 — the count is the number of
documents with at least one match, not the number of matched endpoints. -/
theorem c7_counterexample :
    (foundEndpoints exFilesC7 "/".data []).length = 1 ∧
    (exFilesC7.map (fun f => (scanMatches f.content "/".data []).length)).sum = 2 ∧
    startsWithL (aggregateEndpointDetails exFilesC7 "/".data [])
      "🎯 Found 1 endpoint(s)".data = true := by
  decide

/-- Claim C7 (corrected): when at least one match was found, the leading
count summary reports the number of retrieved documents whose scan
produced at least one match. -/
theorem c7_count_amended : ∀ (files : List YamlFile) (path method : List Char),
    foundEndpoints files path method ≠ [] →
    startsWithL (aggregateEndpointDetails files path method)
      ("🎯 Found ".data ++ natChars ((files.filter (fun f =>
          !decide (searchEndpointInContent f.content path method = []))).length)) = true := by
  intro files path method hne
  have hlen := foundEndpoints_length path method files
  have h0 : ¬((foundEndpoints files path method).length = 0) := by
    simpa [List.length_eq_zero] using hne
  simp only [aggregateEndpointDetails]
  rw [if_neg (by simpa using h0), ← hlen]
  simp only [List.append_assoc]
  rw [← List.append_assoc]
  exact startsWithL_append _ _

/-- Claim C7, witness on the concrete two-endpoint document. -/
theorem c7_count_witness :
    startsWithL (aggregateEndpointDetails exFilesC7 "/".data [])
      ("🎯 Found ".data ++ natChars ((exFilesC7.filter (fun f =>
          !decide (searchEndpointInContent f.content "/".data [] = []))).length)) = true :=
  c7_count_amended exFilesC7 "/".data [] (by decide)
